import Mathlib

/-!
Verification of the `workerpool` Go package (file `pool.go`).

The package provides a fixed-size worker pool. `Pool n done` starts `n`
worker goroutines (or `runtime.NumCPU()` when `n <= 0`) sharing a bounded
dispatch channel `in` of capacity `n` and a shutdown channel `done`.
`pool.Execute ctx actions` derives a cancellable context, allocates a
result channel buffered to the batch length, enqueues one `poolAction`
envelope per action (racing pool shutdown and context cancellation in a
`select`), then receives one result per enqueued envelope, latching the
first non-nil error.

The embedding below is a shallow one.  Concurrency is resolved by an
explicit schedule oracle (`Sched`): for every enqueue step the oracle says
which `select` branch fired, and for the collection phase it gives the
order in which worker results arrive on the result channel.  Go `error`
values are `Option (GoErr E)` with `none` playing the role of `nil`.
Contexts are reduced to the one bit the pool ever hands to an action:
whether the derived context was already cancelled when the action ran.
-/

namespace Workerpool

/-- Go `error` values that can become the batch error: the
`errors.New("pool is closed")` sentinel, a context error
(`context.Canceled` or `context.DeadlineExceeded`, the two values
`ctx.Err()` can take), or an error produced by a caller-supplied action. -/
inductive GoErr (E : Type) where
  | poolClosed
  | ctxCanceled
  | ctxDeadlineExceeded
  | userErr (e : E)
deriving DecidableEq, Repr

/-- The caller-supplied unit of work: `Action` is an interface with a single
method `Execute(ctx context.Context) error`.  The pool never inspects the
action; the only part of the context an action can react to is whether it
has been cancelled, so the embedding passes that bit as the argument. -/
structure Action (E : Type) where
  Execute : Bool → Option E

/-- Which branch of the three-way `select` in the enqueue loop of
`pool.Execute` (pool.go lines 41-50) fired at a given step. -/
inductive EnqueueEvent where
  | poolClosed
  | ctxCancelled
  | enqueued
deriving DecidableEq, Repr

/-- The schedule oracle resolving all nondeterminism of one `Execute` call:
`events i` is the `select` branch that fired while enqueuing action `i`;
`cancelSeen i` is whether action `i` observed the derived context as
cancelled while running; `arrival` lists, in arrival order, the indices of
the enqueued actions whose results come off the result channel;
`callerCancelAt`/`doneClosedAt` are the (global-time) instants at which the
caller's context was cancelled / the `done` channel was closed, `none`
meaning never.  Time is counted in steps: enqueue step `i` happens at time
`i` and the `j`-th receive of the collection phase at time `queued + j`. -/
structure Sched (E : Type) where
  events : Nat → EnqueueEvent
  cancelSeen : Nat → Bool
  arrival : List Nat
  callerCancelAt : Option Nat
  doneClosedAt : Option Nat
  ctxDeadline : Bool

/-- `ctx.Err()` of the derived context once its `Done` channel is closed:
never `nil`, and one of the two context sentinel errors. -/
def ctxErrOf (E : Type) (s : Sched E) : GoErr E :=
  if s.ctxDeadline then .ctxDeadlineExceeded else .ctxCanceled

/-- Outcome of the enqueue loop: stopped by pool shutdown, stopped by
context cancellation, or ran through all actions; in each case `queued`
actions were successfully pushed onto the dispatch channel.  Because every
successful push advances to the next action, the number queued equals the
index at which the loop stopped. -/
inductive EnqOut where
  | closed (queued : Nat)
  | cancelled (queued : Nat)
  | done (queued : Nat)
deriving DecidableEq, Repr

/-- The enqueue loop of `pool.Execute` (pool.go lines 38-51): starting at
action index `i` with `n` actions remaining, resolve each step's `select`
by the oracle until a terminating branch fires or the batch is exhausted. -/
def enqueueLoop (events : Nat → EnqueueEvent) : Nat → Nat → EnqOut
  | i, 0 => .done i
  | i, n + 1 =>
    match events i with
    | .poolClosed => .closed i
    | .ctxCancelled => .cancelled i
    | .enqueued => enqueueLoop events (i + 1) n

/-- The number of actions the enqueue loop pushed before stopping. -/
def EnqOut.queuedCount : EnqOut → Nat
  | .closed k => k
  | .cancelled k => k
  | .done k => k

/-- The collection loop of `pool.Execute` (pool.go lines 53-60): fold over
the received results, latching the first non-nil one into `err` when `err`
is still `nil` and calling `cancel()` at that moment (tracked by the
boolean).  Later results are received but change nothing. -/
def collectLoop {E : Type} : List (Option (GoErr E)) → Option (GoErr E) → Bool →
    Option (GoErr E) × Bool
  | [], err, c => (err, c)
  | r :: rs, err, c =>
    match r with
    | some e =>
      match err with
      | none => collectLoop rs (some e) true
      | some e0 => collectLoop rs (some e0) c
    | none => collectLoop rs err c

/-- The result the worker computes for enqueued action `i`:
`a.action.Execute(a.ctx)` for the envelope of action `i`, whose context
cancellation bit the oracle fixes as `cancelSeen i`.  Caller errors are
embedded with `GoErr.userErr`. -/
def execResult {E : Type} (actions : List (Action E)) (cancelSeen : Nat → Bool)
    (i : Nat) : Option (GoErr E) :=
  match actions[i]? with
  | some a => (a.Execute (cancelSeen i)).map GoErr.userErr
  | none => none

/-- Everything observable about one `pool.Execute` call: the returned
error (`none` is Go `nil`), how many actions were queued, the list of
results received from the result channel in arrival order, whether a
derived context was created (`context.WithCancel`), the capacity the
result channel was created with (`none` when no channel was made), whether
`cancel()` fired inside the collection loop, and whether the call returned
on the pool-closed path without collecting any results. -/
structure ExecOutcome (E : Type) where
  ret : Option (GoErr E)
  queued : Nat
  received : List (Option (GoErr E))
  derivedCtxCreated : Bool
  resCap : Option Nat
  cancelledInCollect : Bool
  abortedNoCollect : Bool
deriving DecidableEq, Repr

/-- `pool.Execute` (pool.go lines 24-63) under the schedule oracle `s`.
An empty batch returns `nil` at once.  Otherwise a cancellable context and
a result channel of capacity `len(actions)` are created, the enqueue loop
runs, and then: on pool shutdown the call cancels and returns the
`pool is closed` error without collecting; on context cancellation the
batch error starts as `ctx.Err()`; on completion it starts as `nil`; in
both of the latter cases one result per queued action is received (the
oracle's `arrival` order) through the collection loop. -/
def Execute {E : Type} (actions : List (Action E)) (s : Sched E) : ExecOutcome E :=
  let qty := actions.length
  if qty = 0 then
    { ret := none, queued := 0, received := [], derivedCtxCreated := false,
      resCap := none, cancelledInCollect := false, abortedNoCollect := false }
  else
    match enqueueLoop s.events 0 qty with
    | .closed k =>
      { ret := some .poolClosed, queued := k, received := [],
        derivedCtxCreated := true, resCap := some qty,
        cancelledInCollect := false, abortedNoCollect := true }
    | .cancelled k =>
      let recv := s.arrival.map (execResult actions s.cancelSeen)
      let out := collectLoop recv (some (ctxErrOf E s)) false
      { ret := out.1, queued := k, received := recv,
        derivedCtxCreated := true, resCap := some qty,
        cancelledInCollect := out.2, abortedNoCollect := false }
    | .done k =>
      let recv := s.arrival.map (execResult actions s.cancelSeen)
      let out := collectLoop recv none false
      { ret := out.1, queued := k, received := recv,
        derivedCtxCreated := true, resCap := some qty,
        cancelledInCollect := out.2, abortedNoCollect := false }

/-- Number of actions of the batch that were successfully enqueued. -/
def queuedOf {E : Type} (actions : List (Action E)) (s : Sched E) : Nat :=
  (enqueueLoop s.events 0 actions.length).queuedCount

/-- Channel-semantics side condition on the oracle: the collection phase
receives exactly one result per enqueued envelope, in some order, because
every enqueued envelope leads to exactly one send on the result channel and
a channel delivers every sent value exactly once.  Hence `arrival` is a
permutation of the enqueued indices. -/
def arrivalValid {E : Type} (actions : List (Action E)) (s : Sched E) : Prop :=
  s.arrival.Perm (List.range (queuedOf actions s))

/-- `beforeTime o t` holds when the instant `o` (if any) is at or before
time `t`, i.e. the corresponding channel was already closed when the event
at time `t` took place. -/
def beforeTime : Option Nat → Nat → Bool
  | none, _ => false
  | some c, t => c ≤ t

/-- Realizability side condition on the oracle's `select` outcomes: a
branch can only fire if its channel was ready, so observing cancellation
at enqueue step `i` requires the caller's context to have been cancelled
by time `i`, and observing pool shutdown requires `done` to have been
closed by time `i`.  (The converse is not required: Go's `select` picks
among ready branches nondeterministically.) -/
def eventsValid {E : Type} (actions : List (Action E)) (s : Sched E) : Prop :=
  ∀ i < actions.length,
    (s.events i = .ctxCancelled → beforeTime s.callerCancelAt i = true) ∧
    (s.events i = .poolClosed → beforeTime s.doneClosedAt i = true)

/-- Whether the caller's context (and with it the derived context) ended
strictly before the last result of the batch arrived.  The enqueue loop
stops at time `queuedOf` and the `j`-th receive happens at time
`queuedOf + j`, so all results have arrived only at time
`queuedOf + |received|`. -/
def callerEndedBeforeAllResults {E : Type} (actions : List (Action E))
    (s : Sched E) : Bool :=
  match s.callerCancelAt with
  | none => false
  | some c => c < queuedOf actions s + (Execute actions s).received.length

/-- First non-nil element of a list of Go error values, `none` if all are
nil — the value the collection loop latches when it enters with `err = nil`. -/
def firstNonNil {E : Type} : List (Option (GoErr E)) → Option (GoErr E)
  | [] => none
  | none :: rs => firstNonNil rs
  | some e :: _ => some e

/-- The batch error already recorded when the collection loop starts:
`ctx.Err()` if the enqueue loop stopped on cancellation, `nil` otherwise. -/
def enqPhaseErr {E : Type} (s : Sched E) : EnqOut → Option (GoErr E)
  | .cancelled _ => some (ctxErrOf E s)
  | _ => none

/-- The `poolAction` struct (pool.go lines 9-13): an envelope pairing a
unit of work with its (derived, cancellable) context — reduced to the
cancellation bit the action can observe — and the identifier of the
batch's result channel it must answer on. -/
structure Envelope (E : Type) where
  ctxCancelled : Bool
  action : Action E
  response : Nat

/-- The single send a worker performs for an envelope:
`a.response <- a.action.Execute(a.ctx)` (pool.go line 71). -/
def runEnvelope {E : Type} (a : Envelope E) : Option (GoErr E) :=
  (a.action.Execute a.ctxCancelled).map GoErr.userErr

/-- Resolution of one iteration of the worker loop's `select`
(pool.go lines 67-72): either the `done` channel was taken (the worker
returns) or an envelope was received from the dispatch channel. -/
inductive WorkerEvent (E : Type) where
  | shutdown
  | envelope (a : Envelope E)

/-- The worker loop `pool.work` (pool.go lines 65-74), run over the
sequence of resolved `select` outcomes: on `shutdown` the worker returns
and performs nothing further; on an envelope it executes the action with
the envelope's context and sends the resulting error — nil or not — on the
envelope's response channel, then loops.  The value is the list of sends
the worker performs, in order, as (channel, value) pairs. -/
def work {E : Type} : List (WorkerEvent E) → List (Nat × Option (GoErr E))
  | [] => []
  | .shutdown :: _ => []
  | .envelope a :: rest => (a.response, runEnvelope a) :: work rest

/-- The envelopes the worker actually dequeues before exiting: everything
up to the first `shutdown` outcome. -/
def dequeuedEnvs {E : Type} : List (WorkerEvent E) → List (Envelope E)
  | [] => []
  | .shutdown :: _ => []
  | .envelope a :: rest => a :: dequeuedEnvs rest

/-- What `Pool` builds before returning (pool.go lines 80-92): the shared
dispatch channel's capacity, and one entry per started worker goroutine
recording which dispatch channel and which shutdown channel that worker
was given (`go p.work(p.in, p.done)`).  Channels are named by identifiers. -/
structure PoolInit where
  inCap : Nat
  spawned : List (Nat × Nat)
deriving DecidableEq, Repr

/-- The `Pool` constructor (pool.go lines 80-92): replace `n ≤ 0` by
`runtime.NumCPU()` (passed in as `numCPU`), create the dispatch channel
`in` with capacity `n`, and start `n` workers, every one of them on the
same pair `(in, done)`. -/
def Pool (n : Int) (numCPU : Nat) (inId doneId : Nat) : PoolInit :=
  let m : Int := if n ≤ 0 then (numCPU : Int) else n
  { inCap := m.toNat, spawned := List.replicate m.toNat (inId, doneId) }

/-- Status of one worker goroutine of the pool: blocked in its `select`
waiting for work, currently executing a dequeued envelope's action, or
returned after observing shutdown. -/
inductive WStatus (E : Type) where
  | idle
  | busy (a : Envelope E)
  | exited

/-- `WStatus.busy`, as a Boolean test. -/
def WStatus.isBusy {E : Type} : WStatus E → Bool
  | .busy _ => true
  | _ => false

/-- Global state of a running pool: the contents of the bounded dispatch
channel with its capacity, the status of every worker goroutine, and
whether the shutdown channel has been closed.  Envelopes in the queue may
come from any number of concurrent `Execute` calls. -/
structure PoolSt (E : Type) where
  cap : Nat
  queue : List (Envelope E)
  workers : List (WStatus E)
  doneClosed : Bool

/-- The pool state right after `Pool n done` returns: `n` idle workers
(with `runtime.NumCPU()` substituted when `n ≤ 0`), an empty dispatch
channel of capacity `n`, shutdown not yet signalled. -/
def initPool (E : Type) (n : Int) (numCPU : Nat) : PoolSt E :=
  let m : Int := if n ≤ 0 then (numCPU : Int) else n
  { cap := m.toNat, queue := [], workers := List.replicate m.toNat .idle,
    doneClosed := false }

/-- One atomic step of the running pool system: a producer (`Execute`'s
enqueue loop, of any batch) pushes an envelope into the non-full dispatch
channel; someone closes the shutdown channel; an idle worker receives the
head envelope and starts executing it (pool.go line 70); a busy worker
finishes `a.action.Execute(a.ctx)`, sends the result and becomes idle
again (pool.go line 71); or an idle worker observes shutdown and returns
(pool.go lines 68-69). -/
inductive PoolStep {E : Type} : PoolSt E → PoolSt E → Prop where
  | push (st : PoolSt E) (a : Envelope E) (h : st.queue.length < st.cap) :
      PoolStep st { st with queue := st.queue ++ [a] }
  | closeDone (st : PoolSt E) :
      PoolStep st { st with doneClosed := true }
  | dequeue (st : PoolSt E) (i : Nat) (a : Envelope E) (rest : List (Envelope E))
      (hw : st.workers[i]? = some .idle) (hq : st.queue = a :: rest) :
      PoolStep st { st with queue := rest, workers := st.workers.set i (.busy a) }
  | finish (st : PoolSt E) (i : Nat) (a : Envelope E)
      (hw : st.workers[i]? = some (.busy a)) :
      PoolStep st { st with workers := st.workers.set i .idle }
  | exitShutdown (st : PoolSt E) (i : Nat) (hd : st.doneClosed = true)
      (hw : st.workers[i]? = some .idle) :
      PoolStep st { st with workers := st.workers.set i .exited }

/-- A pool state is reachable if a finite sequence of steps leads to it
from the freshly constructed pool. -/
def Reachable (E : Type) (n : Int) (numCPU : Nat) (st : PoolSt E) : Prop :=
  Relation.ReflTransGen PoolStep (initPool E n numCPU) st

/-- Number of units of work executing at this instant: the workers that
are in the middle of `a.action.Execute(a.ctx)`. -/
def busyCount {E : Type} (st : PoolSt E) : Nat :=
  (st.workers.filter WStatus.isBusy).length

/-- Whether the enqueue loop stopped because the pool's shutdown signal
was observed. -/
def EnqOut.isClosed : EnqOut → Bool
  | .closed _ => true
  | _ => false

/-! ### Concrete fixtures used to instantiate theorems -/

/-- An action that ignores its context and always succeeds. -/
def okActionU : Action Unit := { Execute := fun _ => none }

/-- An action over `Nat`-valued errors that always succeeds. -/
def okActionN : Action Nat := { Execute := fun _ => none }

/-- An action that always fails with error value `7`. -/
def failAction7 : Action Nat := { Execute := fun _ => some 7 }

/-- A schedule in which every enqueue attempt succeeds and the single
result arrives; nothing is ever cancelled or closed. -/
def schedOkU : Sched Unit :=
  { events := fun _ => .enqueued, cancelSeen := fun _ => false, arrival := [0],
    callerCancelAt := none, doneClosedAt := none, ctxDeadline := false }

/-- A schedule for a two-action batch in which both enqueues succeed and
the results arrive out of submission order. -/
def schedTwoN : Sched Nat :=
  { events := fun _ => .enqueued, cancelSeen := fun _ => false,
    arrival := [1, 0], callerCancelAt := none, doneClosedAt := none,
    ctxDeadline := false }

/-- A schedule in which the first enqueue succeeds and the second `select`
observes the pool's shutdown signal (closed at time 0). -/
def schedClosed1 : Sched Unit :=
  { events := fun i => if i = 1 then .poolClosed else .enqueued,
    cancelSeen := fun _ => false, arrival := [],
    callerCancelAt := none, doneClosedAt := some 0, ctxDeadline := false }

/-- A schedule in which the caller's context is already cancelled before
submission, so the very first `select` observes cancellation. -/
def schedCancel0 : Sched Unit :=
  { events := fun _ => .ctxCancelled, cancelSeen := fun _ => false,
    arrival := [], callerCancelAt := some 0, doneClosedAt := none,
    ctxDeadline := false }

/-- A schedule in which the one action is enqueued successfully and only
then — during the collection phase — the caller cancels its context; the
action observes the cancelled derived context but returns nil anyway. -/
def lateCancelSched : Sched Unit :=
  { events := fun _ => .enqueued, cancelSeen := fun _ => true, arrival := [0],
    callerCancelAt := some 1, doneClosedAt := none, ctxDeadline := false }

/-- The one-action batch used together with `lateCancelSched`: its action
ignores the cancellation it observes and succeeds. -/
def lateCancelActions : List (Action Unit) := [okActionU]

/-- An envelope whose derived context is already cancelled when a worker
dequeues it. -/
def cancelledEnv : Envelope Unit :=
  { ctxCancelled := true, action := okActionU, response := 5 }

/-! ### Helper lemmas -/

theorem enqueueLoop_succ (events : Nat → EnqueueEvent) (i n : Nat) :
    enqueueLoop events i (n + 1) =
      match events i with
      | .poolClosed => .closed i
      | .ctxCancelled => .cancelled i
      | .enqueued => enqueueLoop events (i + 1) n := rfl

theorem enqueueLoop_queuedCount_le (events : Nat → EnqueueEvent) :
    ∀ n i, (enqueueLoop events i n).queuedCount ≤ i + n := by
  intro n
  induction n with
  | zero => intro i; simp [enqueueLoop, EnqOut.queuedCount]
  | succ m ih =>
    intro i
    cases hev : events i with
    | poolClosed => simp [enqueueLoop, hev, EnqOut.queuedCount]
    | ctxCancelled => simp [enqueueLoop, hev, EnqOut.queuedCount]
    | enqueued =>
      have h0 : enqueueLoop events i (m + 1) = enqueueLoop events (i + 1) m := by
        rw [enqueueLoop_succ, hev]
      rw [h0]
      have := ih (i + 1)
      omega

theorem enqueueLoop_done_eq (events : Nat → EnqueueEvent) :
    ∀ n i k, enqueueLoop events i n = .done k → k = i + n := by
  intro n
  induction n with
  | zero =>
    intro i k h
    simp only [enqueueLoop] at h
    cases h; omega
  | succ m ih =>
    intro i k h
    unfold enqueueLoop at h
    cases hev : events i <;> rw [hev] at h
    · cases h
    · cases h
    · have := ih (i + 1) k h; omega

theorem enqueueLoop_all_enqueued (events : Nat → EnqueueEvent) :
    ∀ n i, (∀ j, i ≤ j → j < i + n → events j = .enqueued) →
      enqueueLoop events i n = .done (i + n) := by
  intro n
  induction n with
  | zero => intro i _; simp [enqueueLoop]
  | succ m ih =>
    intro i h
    unfold enqueueLoop
    rw [h i (Nat.le_refl i) (by omega)]
    have := ih (i + 1) (fun j h1 h2 => h j (by omega) (by omega))
    rw [this]
    have : i + 1 + m = i + (m + 1) := by omega
    rw [this]

theorem enqueueLoop_stops_at (events : Nat → EnqueueEvent) :
    ∀ n i k, i ≤ k → k < i + n → (∀ j, i ≤ j → j < k → events j = .enqueued) →
      events k ≠ .enqueued →
      enqueueLoop events i n =
        (match events k with
         | .poolClosed => EnqOut.closed k
         | .ctxCancelled => EnqOut.cancelled k
         | .enqueued => EnqOut.done k) := by
  intro n
  induction n with
  | zero => intro i k h1 h2; omega
  | succ m ih =>
    intro i k h1 h2 hpre hk
    rcases Nat.eq_or_lt_of_le h1 with heq | hlt
    · subst heq
      cases hev : events i with
      | poolClosed => simp [enqueueLoop, hev]
      | ctxCancelled => simp [enqueueLoop, hev]
      | enqueued => exact absurd hev hk
    · have h0 : enqueueLoop events i (m + 1) = enqueueLoop events (i + 1) m := by
        rw [enqueueLoop_succ, hpre i (Nat.le_refl i) hlt]
      rw [h0]
      exact ih (i + 1) k hlt (by omega) (fun j hj1 hj2 => hpre j (by omega) hj2) hk

theorem collectLoop_some {E : Type} (e : GoErr E) :
    ∀ (rs : List (Option (GoErr E))) (c : Bool),
      collectLoop rs (some e) c = (some e, c) := by
  intro rs
  induction rs with
  | nil => intro c; rfl
  | cons r rest ih =>
    intro c
    cases r with
    | none => simpa [collectLoop] using ih c
    | some e1 => simpa [collectLoop] using ih c

theorem collectLoop_none {E : Type} :
    ∀ rs : List (Option (GoErr E)),
      collectLoop rs none false = (firstNonNil rs, (firstNonNil rs).isSome) := by
  intro rs
  induction rs with
  | nil => rfl
  | cons r rest ih =>
    cases r with
    | none => simpa [collectLoop, firstNonNil] using ih
    | some e => simp [collectLoop, firstNonNil, collectLoop_some]

theorem firstNonNil_eq_none {E : Type} :
    ∀ rs : List (Option (GoErr E)), firstNonNil rs = none ↔ ∀ r ∈ rs, r = none := by
  intro rs
  induction rs with
  | nil => simp [firstNonNil]
  | cons r rest ih =>
    cases r with
    | none => simpa [firstNonNil] using ih
    | some e => simp [firstNonNil]

theorem Execute_closed {E : Type} (actions : List (Action E)) (s : Sched E)
    (k : Nat) (hne : actions.length ≠ 0)
    (h : enqueueLoop s.events 0 actions.length = .closed k) :
    Execute actions s =
      { ret := some .poolClosed, queued := k, received := [],
        derivedCtxCreated := true, resCap := some actions.length,
        cancelledInCollect := false, abortedNoCollect := true } := by
  unfold Execute
  simp [hne, h]

theorem Execute_cancelled {E : Type} (actions : List (Action E)) (s : Sched E)
    (k : Nat) (hne : actions.length ≠ 0)
    (h : enqueueLoop s.events 0 actions.length = .cancelled k) :
    Execute actions s =
      { ret := some (ctxErrOf E s), queued := k,
        received := s.arrival.map (execResult actions s.cancelSeen),
        derivedCtxCreated := true, resCap := some actions.length,
        cancelledInCollect := false, abortedNoCollect := false } := by
  unfold Execute
  simp [hne, h, collectLoop_some]

theorem Execute_enqueue_done {E : Type} (actions : List (Action E)) (s : Sched E)
    (k : Nat) (hne : actions.length ≠ 0)
    (h : enqueueLoop s.events 0 actions.length = .done k) :
    Execute actions s =
      { ret := firstNonNil (s.arrival.map (execResult actions s.cancelSeen)),
        queued := k,
        received := s.arrival.map (execResult actions s.cancelSeen),
        derivedCtxCreated := true, resCap := some actions.length,
        cancelledInCollect :=
          (firstNonNil (s.arrival.map (execResult actions s.cancelSeen))).isSome,
        abortedNoCollect := false } := by
  unfold Execute
  simp [hne, h, collectLoop_none]

theorem Execute_queued_eq {E : Type} (actions : List (Action E)) (s : Sched E) :
    (Execute actions s).queued = queuedOf actions s := by
  by_cases hne : actions.length = 0
  · unfold Execute queuedOf
    simp [hne, enqueueLoop, EnqOut.queuedCount]
  · cases h : enqueueLoop s.events 0 actions.length with
    | closed k =>
      rw [Execute_closed actions s k hne h]
      simp [queuedOf, h, EnqOut.queuedCount]
    | cancelled k =>
      rw [Execute_cancelled actions s k hne h]
      simp [queuedOf, h, EnqOut.queuedCount]
    | done k =>
      rw [Execute_enqueue_done actions s k hne h]
      simp [queuedOf, h, EnqOut.queuedCount]

/-! ### Claim theorems -/

/-- C5: `Execute` called with an empty list of actions returns nil
immediately: it does not derive a child context, does not allocate a
result channel, does not send on the pool's dispatch queue, and does not
receive from any channel — whatever the schedule. -/
theorem claim_C5 {E : Type} (s : Sched E) :
    Execute ([] : List (Action E)) s =
      { ret := none, queued := 0, received := [], derivedCtxCreated := false,
        resCap := none, cancelledInCollect := false,
        abortedNoCollect := false } := rfl

/-- C3: if the pool's shutdown signal is observed at enqueue step `k`
(after `k` successful enqueues), `Execute` returns the `pool is closed`
error immediately, with the derived context created (and hence cancelled,
both by the explicit `cancel()` on this path and by the deferred one) and
with no results received for the `k` actions already enqueued. -/
theorem claim_C3 {E : Type} (actions : List (Action E)) (s : Sched E) (k : Nat)
    (hk : k < actions.length)
    (hpre : ∀ j < k, s.events j = .enqueued)
    (hev : s.events k = .poolClosed) :
    (Execute actions s).ret = some .poolClosed ∧
    (Execute actions s).received = [] ∧
    (Execute actions s).abortedNoCollect = true ∧
    (Execute actions s).derivedCtxCreated = true ∧
    (Execute actions s).queued = k := by
  have hne : actions.length ≠ 0 := by omega
  have hstop := enqueueLoop_stops_at s.events actions.length 0 k (Nat.zero_le k)
    (by omega) (fun j _ hj2 => hpre j hj2) (by simp [hev])
  rw [hev] at hstop
  rw [Execute_closed actions s k hne hstop]
  exact ⟨rfl, rfl, rfl, rfl, rfl⟩

/-- C3 witness: a three-action batch whose second enqueue attempt observes
the shutdown signal. -/
theorem claim_C3_witness :
    (Execute [okActionU, okActionU, okActionU] schedClosed1).ret =
        some .poolClosed ∧
    (Execute [okActionU, okActionU, okActionU] schedClosed1).received = [] ∧
    (Execute [okActionU, okActionU, okActionU] schedClosed1).abortedNoCollect =
        true ∧
    (Execute [okActionU, okActionU, okActionU] schedClosed1).derivedCtxCreated =
        true ∧
    (Execute [okActionU, okActionU, okActionU] schedClosed1).queued = 1 :=
  claim_C3 [okActionU, okActionU, okActionU] schedClosed1 1 (by decide)
    (by decide) (by decide)

/-- C4: if the derived context is cancelled at enqueue step `k` (after `k`
successful enqueues; `k = 0` covers a caller context already cancelled
before submission), `Execute` stops enqueuing, records `ctx.Err()` as the
batch error, collects exactly the `k` results of the already-enqueued
actions — none of which can overwrite the recorded error — and returns
that cancellation error. -/
theorem claim_C4 {E : Type} (actions : List (Action E)) (s : Sched E) (k : Nat)
    (hk : k < actions.length)
    (hpre : ∀ j < k, s.events j = .enqueued)
    (hev : s.events k = .ctxCancelled)
    (hA : arrivalValid actions s) :
    (Execute actions s).queued = k ∧
    (Execute actions s).received.length = k ∧
    (Execute actions s).received.Perm
      ((List.range k).map (execResult actions s.cancelSeen)) ∧
    (Execute actions s).ret = some (ctxErrOf E s) := by
  have hne : actions.length ≠ 0 := by omega
  have hstop := enqueueLoop_stops_at s.events actions.length 0 k (Nat.zero_le k)
    (by omega) (fun j _ hj2 => hpre j hj2) (by simp [hev])
  rw [hev] at hstop
  have hq : queuedOf actions s = k := by
    simp [queuedOf, hstop, EnqOut.queuedCount]
  rw [Execute_cancelled actions s k hne hstop]
  unfold arrivalValid at hA
  rw [hq] at hA
  refine ⟨rfl, ?_, ?_, rfl⟩
  · simpa [List.length_map, List.length_range] using hA.length_eq
  · exact hA.map (execResult actions s.cancelSeen)

/-- C4 witness: a caller context already cancelled before submission; no
action is enqueued and the context's cancellation error is returned. -/
theorem claim_C4_witness :
    (Execute [okActionU] schedCancel0).queued = 0 ∧
    (Execute [okActionU] schedCancel0).received.length = 0 ∧
    (Execute [okActionU] schedCancel0).received.Perm
      ((List.range 0).map (execResult [okActionU] schedCancel0.cancelSeen)) ∧
    (Execute [okActionU] schedCancel0).ret = some (ctxErrOf Unit schedCancel0) :=
  claim_C4 [okActionU] schedCancel0 0 (by decide) (by omega) (by decide)
    (by unfold arrivalValid; decide)

/-- C2: whenever `Execute` reaches its collection phase (the enqueue loop
did not stop on pool shutdown), exactly one result is received per
successfully enqueued action and no others; the batch's returned error is
the error recorded during enqueue if there was one, and otherwise the
first non-nil received result; later results are received but never
overwrite it; and `cancel()` fires inside the collection loop exactly when
no error was recorded during enqueue and some received result is non-nil. -/
theorem claim_C2 {E : Type} (actions : List (Action E)) (s : Sched E)
    (hne : actions ≠ [])
    (hnc : (enqueueLoop s.events 0 actions.length).isClosed = false)
    (hA : arrivalValid actions s) :
    (Execute actions s).received.length = (Execute actions s).queued ∧
    (Execute actions s).received.Perm
      ((List.range (Execute actions s).queued).map
        (execResult actions s.cancelSeen)) ∧
    (Execute actions s).ret =
      (enqPhaseErr s (enqueueLoop s.events 0 actions.length)).orElse
        (fun _ => firstNonNil (Execute actions s).received) ∧
    (Execute actions s).cancelledInCollect =
      ((enqPhaseErr s (enqueueLoop s.events 0 actions.length)).isNone &&
        (firstNonNil (Execute actions s).received).isSome) := by
  have hneL : actions.length ≠ 0 := by
    have := List.length_pos.mpr hne
    omega
  unfold arrivalValid queuedOf at hA
  cases h : enqueueLoop s.events 0 actions.length with
  | closed k => rw [h] at hnc; simp [EnqOut.isClosed] at hnc
  | cancelled k =>
    rw [h] at hA
    rw [Execute_cancelled actions s k hneL h]
    refine ⟨?_, ?_, ?_, ?_⟩
    · simpa [List.length_map, List.length_range, EnqOut.queuedCount]
        using hA.length_eq
    · exact hA.map (execResult actions s.cancelSeen)
    · simp [enqPhaseErr, Option.orElse]
    · simp [enqPhaseErr]
  | done k =>
    rw [h] at hA
    rw [Execute_enqueue_done actions s k hneL h]
    refine ⟨?_, ?_, ?_, ?_⟩
    · simpa [List.length_map, List.length_range, EnqOut.queuedCount]
        using hA.length_eq
    · exact hA.map (execResult actions s.cancelSeen)
    · simp [enqPhaseErr, Option.orElse]
    · simp [enqPhaseErr]

/-- C2 witness: a two-action batch whose first action fails with error 7
and whose results arrive out of order; both results are received, the
single non-nil one becomes the batch error and triggers the in-collection
cancellation. -/
theorem claim_C2_witness :
    (Execute [failAction7, okActionN] schedTwoN).received.length =
        (Execute [failAction7, okActionN] schedTwoN).queued ∧
    (Execute [failAction7, okActionN] schedTwoN).received.Perm
      ((List.range (Execute [failAction7, okActionN] schedTwoN).queued).map
        (execResult [failAction7, okActionN] schedTwoN.cancelSeen)) ∧
    (Execute [failAction7, okActionN] schedTwoN).ret =
      (enqPhaseErr schedTwoN (enqueueLoop schedTwoN.events 0 2)).orElse
        (fun _ =>
          firstNonNil (Execute [failAction7, okActionN] schedTwoN).received) ∧
    (Execute [failAction7, okActionN] schedTwoN).cancelledInCollect =
      ((enqPhaseErr schedTwoN (enqueueLoop schedTwoN.events 0 2)).isNone &&
        (firstNonNil
          (Execute [failAction7, okActionN] schedTwoN).received).isSome) :=
  claim_C2 [failAction7, okActionN] schedTwoN (by simp)
    (by decide) (by unfold arrivalValid; decide)

/-- C1 (amended): `Execute` returns nil exactly when the enqueue loop ran
through the whole batch without observing shutdown or cancellation and
every received result was nil; and for every non-empty batch in which
every select succeeds and every action returns nil, `Execute` returns nil
and each action's result is collected exactly once (the action ran exactly
once).  Cancellation that happens only after the enqueue phase — while
results are still outstanding — does not prevent the nil return (see the
counterexample to the claim as originally stated). -/
theorem claim_C1 {E : Type} (actions : List (Action E)) (s : Sched E)
    (hA : arrivalValid actions s) :
    ((Execute actions s).ret = none →
      enqueueLoop s.events 0 actions.length = .done actions.length ∧
      ∀ r ∈ (Execute actions s).received, r = none) ∧
    (actions ≠ [] →
      (∀ i < actions.length, s.events i = .enqueued) →
      (∀ a ∈ actions, ∀ b, a.Execute b = none) →
      (Execute actions s).ret = none ∧
      ∀ i < actions.length, s.arrival.count i = 1) := by
  unfold arrivalValid queuedOf at hA
  by_cases hneL : actions.length = 0
  · rw [List.length_eq_zero] at hneL
    subst hneL
    refine ⟨fun _ => ⟨rfl, ?_⟩, fun hne => absurd rfl hne⟩
    intro r hr
    simp [Execute] at hr
  · constructor
    · intro hret
      cases h : enqueueLoop s.events 0 actions.length with
      | closed k =>
        rw [Execute_closed actions s k hneL h] at hret
        cases hret
      | cancelled k =>
        rw [Execute_cancelled actions s k hneL h] at hret
        cases hret
      | done k =>
        have hkq : k = actions.length := by
          have := enqueueLoop_done_eq s.events actions.length 0 k h
          omega
        subst hkq
        refine ⟨rfl, ?_⟩
        rw [Execute_enqueue_done actions s _ hneL h] at hret ⊢
        exact (firstNonNil_eq_none _).mp hret
    · intro hne hev hact
      have hdone : enqueueLoop s.events 0 actions.length =
          .done actions.length := by
        have := enqueueLoop_all_enqueued s.events actions.length 0
          (fun j _ hj2 => hev j (by omega))
        simpa using this
      rw [hdone] at hA
      simp only [EnqOut.queuedCount] at hA
      constructor
      · rw [Execute_enqueue_done actions s _ hneL hdone]
        refine (firstNonNil_eq_none _).mpr ?_
        intro r hr
        rw [List.mem_map] at hr
        obtain ⟨j, hj, hjr⟩ := hr
        have hjlt : j < actions.length := by
          have := hA.mem_iff.mp hj
          exact List.mem_range.mp this
        obtain ⟨a, hja⟩ : ∃ a, actions[j]? = some a :=
          ⟨actions[j], List.getElem?_eq_getElem hjlt⟩
        have ha : a ∈ actions := by
          have := List.getElem?_eq_getElem hjlt
          rw [this] at hja
          cases hja
          exact List.getElem_mem hjlt
        rw [← hjr]
        simp [execResult, hja, hact a ha]
      · intro i hi
        rw [hA.count_eq i]
        exact List.count_eq_one_of_mem (List.nodup_range _)
          (List.mem_range.mpr hi)

/-- C1 witness for the amended claim: a one-action batch that enqueues
cleanly and succeeds returns nil and collects that action's result exactly
once. -/
theorem claim_C1_witness :
    ((Execute [okActionU] schedOkU).ret = none →
      enqueueLoop schedOkU.events 0 1 = .done 1 ∧
      ∀ r ∈ (Execute [okActionU] schedOkU).received, r = none) ∧
    ([okActionU] ≠ [] →
      (∀ i < 1, schedOkU.events i = .enqueued) →
      (∀ a ∈ [okActionU], ∀ b, a.Execute b = none) →
      (Execute [okActionU] schedOkU).ret = none ∧
      ∀ i < 1, schedOkU.arrival.count i = 1) :=
  claim_C1 [okActionU] schedOkU (by unfold arrivalValid; decide)

/-- C1 counterexample to the claim as stated: a realizable schedule
(`eventsValid` and `arrivalValid` hold) in which the caller's context is
cancelled after the one action was enqueued but before its result arrived
— the action even observes the cancelled derived context — and yet
`Execute` returns nil.  So "returns nil only if the batch was never
cancelled (neither the derived context nor the caller's context ended
before all results arrived)" is false of the code: cancellation after the
enqueue phase is invisible to the collection loop. -/
theorem claim_C1_counterexample :
    eventsValid lateCancelActions lateCancelSched ∧
    arrivalValid lateCancelActions lateCancelSched ∧
    callerEndedBeforeAllResults lateCancelActions lateCancelSched = true ∧
    (Execute lateCancelActions lateCancelSched).ret = none := by
  refine ⟨?_, ?_, ?_, ?_⟩
  · unfold eventsValid
    decide
  · unfold arrivalValid
    decide
  · decide
  · decide

theorem effective_toNat (n : Int) (cpu : Nat) :
    (if n ≤ 0 then (cpu : Int) else n).toNat =
      if 0 < n then n.toNat else cpu := by
  split_ifs with h1 h2 <;> omega

/-- C6: `Pool n done` creates a dispatch queue whose capacity equals the
effective worker count and starts exactly that many worker routines, every
one of them on the same dispatch queue and the same shutdown signal, where
the effective count is `n` for `n > 0` and `runtime.NumCPU()` otherwise. -/
theorem claim_C6 (n : Int) (numCPU inId doneId : Nat) :
    (Pool n numCPU inId doneId).inCap = (if 0 < n then n.toNat else numCPU) ∧
    (Pool n numCPU inId doneId).spawned.length =
      (if 0 < n then n.toNat else numCPU) ∧
    ∀ w ∈ (Pool n numCPU inId doneId).spawned, w = (inId, doneId) := by
  unfold Pool
  refine ⟨effective_toNat n numCPU, ?_, ?_⟩
  · rw [List.length_replicate]
    exact effective_toNat n numCPU
  · intro w hw
    exact List.eq_of_mem_replicate hw

/-- One send per dequeued envelope: over any resolved run of the worker
loop, the sends the worker performs are exactly one per dequeued envelope,
in dequeue order, each carrying the error the envelope's action returned
on the envelope's context. -/
theorem work_eq_map {E : Type} (evts : List (WorkerEvent E)) :
    work evts = (dequeuedEnvs evts).map fun a => (a.response, runEnvelope a) := by
  induction evts with
  | nil => rfl
  | cons e rest ih =>
    cases e with
    | shutdown => rfl
    | envelope a => simp [work, dequeuedEnvs, ih]

/-- C7: for every envelope dequeued by a worker, the worker sends exactly
one value on that envelope's response channel — the error (nil or not)
returned by executing the envelope's action with the envelope's context —
never zero sends and never two: the send list is exactly the one-to-one
image of the dequeued-envelope list. -/
theorem claim_C7 {E : Type} (evts : List (WorkerEvent E)) :
    work evts =
      (dequeuedEnvs evts).map
        (fun a => (a.response, (a.action.Execute a.ctxCancelled).map
          GoErr.userErr)) ∧
    (work evts).length = (dequeuedEnvs evts).length := by
  refine ⟨?_, ?_⟩
  · simpa [runEnvelope] using work_eq_map evts
  · rw [work_eq_map evts, List.length_map]

theorem dequeuedEnvs_map_envelope {E : Type} (envs : List (Envelope E)) :
    dequeuedEnvs (envs.map WorkerEvent.envelope) = envs := by
  induction envs with
  | nil => rfl
  | cons a rest ih => simp [dequeuedEnvs, ih]

/-- C8: the result channel is created with buffer capacity equal to the
batch length; the number of successfully enqueued actions — and therefore
the total number of results the workers will ever send into that channel,
one per enqueued envelope — is at most that capacity.  This holds on every
path, including the pool-closed one where `Execute` returns without
draining, so a worker's send on the batch's result channel never blocks. -/
theorem claim_C8 {E : Type} (actions : List (Action E)) (s : Sched E)
    (hne : actions ≠ []) :
    (Execute actions s).resCap = some actions.length ∧
    (Execute actions s).queued ≤ actions.length ∧
    ∀ envs : List (Envelope E), envs.length = (Execute actions s).queued →
      (work (envs.map WorkerEvent.envelope)).length ≤ actions.length := by
  have hneL : actions.length ≠ 0 := by
    have := List.length_pos.mpr hne
    omega
  have hqle : (Execute actions s).queued ≤ actions.length := by
    rw [Execute_queued_eq]
    have := enqueueLoop_queuedCount_le s.events actions.length 0
    unfold queuedOf
    omega
  refine ⟨?_, hqle, ?_⟩
  · cases h : enqueueLoop s.events 0 actions.length with
    | closed k => rw [Execute_closed actions s k hneL h]
    | cancelled k => rw [Execute_cancelled actions s k hneL h]
    | done k => rw [Execute_enqueue_done actions s k hneL h]
  · intro envs hlen
    rw [work_eq_map, List.length_map, dequeuedEnvs_map_envelope, hlen]
    exact hqle

/-- C8 witness: a one-action batch on the all-clean schedule has a result
channel of capacity 1, one enqueued action, and the single worker send
fits the buffer. -/
theorem claim_C8_witness :
    (Execute [okActionU] schedOkU).resCap = some 1 ∧
    (Execute [okActionU] schedOkU).queued ≤ 1 ∧
    (work ([cancelledEnv].map WorkerEvent.envelope)).length ≤ 1 := by
  have h := claim_C8 [okActionU] schedOkU (by simp)
  exact ⟨h.1, h.2.1, h.2.2 [cancelledEnv] (by decide)⟩

theorem poolStep_workers_length {E : Type} {st st' : PoolSt E}
    (h : PoolStep st st') : st'.workers.length = st.workers.length := by
  cases h <;> simp [List.length_set]

theorem reachable_workers_length {E : Type} (n : Int) (numCPU : Nat)
    (st : PoolSt E) (h : Reachable E n numCPU st) :
    st.workers.length = (if 0 < n then n.toNat else numCPU) := by
  induction h with
  | refl =>
    show (initPool E n numCPU).workers.length = _
    unfold initPool
    rw [List.length_replicate]
    exact effective_toNat n numCPU
  | tail hsteps hstep ih => rw [poolStep_workers_length hstep, ih]

/-- C9: in every reachable state of a pool built with requested size `n`,
at most the effective worker count (`n`, or `runtime.NumCPU()` for
`n ≤ 0`) units of work are executing simultaneously — each worker routine
runs at most one envelope's action at a time and nothing else ever runs an
action, no matter how many concurrent batches feed the shared queue. -/
theorem claim_C9 {E : Type} (n : Int) (numCPU : Nat) (st : PoolSt E)
    (h : Reachable E n numCPU st) :
    busyCount st ≤ (if 0 < n then n.toNat else numCPU) := by
  rw [← reachable_workers_length n numCPU st h]
  exact List.length_filter_le WStatus.isBusy st.workers

/-- C9 witness: the freshly constructed pool of size 2 is reachable and
has no unit of work executing, hence at most 2. -/
theorem claim_C9_witness :
    busyCount (initPool Unit 2 4) ≤ (if 0 < (2 : Int) then (2 : Int).toNat else 4) :=
  claim_C9 2 4 (initPool Unit 2 4) Relation.ReflTransGen.refl

/-- C10: a worker that dequeues an envelope executes its action
unconditionally: even when the envelope's batch-derived context is already
cancelled at dequeue time, the worker's next step is to run the action
(handing it the cancelled context) and send the one resulting value on the
envelope's response channel. -/
theorem claim_C10 {E : Type} (a : Envelope E) (rest : List (WorkerEvent E))
    (h : a.ctxCancelled = true) :
    work (WorkerEvent.envelope a :: rest) =
      (a.response, (a.action.Execute true).map GoErr.userErr) :: work rest := by
  simp [work, runEnvelope, h]

/-- C10 witness: a worker handed the concrete already-cancelled envelope
still executes its action and produces its (nil) result. -/
theorem claim_C10_witness :
    work (WorkerEvent.envelope cancelledEnv :: []) =
      (cancelledEnv.response,
        (cancelledEnv.action.Execute true).map GoErr.userErr) ::
        work ([] : List (WorkerEvent Unit)) :=
  claim_C10 cancelledEnv [] rfl

end Workerpool
